import Mathlib

/-!
Shallow embedding of the Crop-Dashboard trait analytics engine (`app.py`).

A catalog row is a `Plant` record holding the normalized string columns the
engine reads.  The filter engine, category index, encoders, radar builder,
sankey builder, nearest-neighbour search and the clustering pipeline are
translated from the source; sklearn primitives (`LabelEncoder`,
`OneHotEncoder`, `PCA`, `KMeans`) that the source calls are modelled from the
library contract where noted in their doc comments.
-/

namespace CropDashboard

/-- One normalized row of the catalog, with the columns the engine reads
(`Plant`, `Common Name`, `Root Type`, `Root Depth`, `Stem / Growth Form`,
`Leaf Traits`, `Reproductive Traits`, `Stress Tolerance`,
`Special Adaptations` and the six usage flags, each a `Yes`/`No` string). -/
structure Plant where
  plant : String
  commonName : String
  rootType : String
  rootDepth : String
  growthForm : String
  leafTraits : String
  reproductiveTraits : String
  stressTolerance : String
  specialAdaptations : String
  vegetableFlag : String
  fruitFlag : String
  medicinalFlag : String
  commercialFlag : String
  ornamentalFlag : String
  fodderFlag : String
deriving DecidableEq

/-- A parsed query: one (possibly empty) list of selected values per
filterable field, as produced by `_parse_list_arg` for each request key. -/
structure Query where
  plants : List String
  rootSystem : List String
  rootDepth : List String
  growthForm : List String
  stressTolerance : List String
  vegetable : List String
  usage : List String
deriving DecidableEq

/-- The empty query: every field absent/empty. -/
def Query.empty : Query := ⟨[], [], [], [], [], [], []⟩

/-- `usage_map` of `apply_filters`: maps a usage tag to the flag column it
selects, returning that column's value for the given row (`none` for an
unrecognized tag, which the source skips). -/
def usage_map (u : String) (p : Plant) : Option String :=
  if u = "Vegetable" then some p.vegetableFlag
  else if u = "Fruit" then some p.fruitFlag
  else if u = "Medicinal Plant" then some p.medicinalFlag
  else if u = "Commercial Crop" then some p.commercialFlag
  else if u = "Ornamental Plant" then some p.ornamentalFlag
  else if u = "Fodder Crop" then some p.fodderFlag
  else none

/-- The usage mask loop of `apply_filters`: starts from `False` and ORs in
`row[col] == 'Yes'` for each recognized usage tag. -/
def usage_match (us : List String) (p : Plant) : Bool :=
  us.foldl
    (fun mask u =>
      mask || (match usage_map u p with
               | some v => v == "Yes"
               | none => false))
    false

/-- `apply_filters`: each non-empty field narrows the current subset by exact
membership (`isin`); the usage field uses the any-of mask.  Row order of the
source frame is preserved by every step. -/
def apply_filters (source : List Plant) (q : Query) : List Plant :=
  let filtered := source
  let filtered := if q.plants.isEmpty then filtered else
    filtered.filter (fun r => q.plants.contains r.plant)
  let filtered := if q.rootSystem.isEmpty then filtered else
    filtered.filter (fun r => q.rootSystem.contains r.rootType)
  let filtered := if q.rootDepth.isEmpty then filtered else
    filtered.filter (fun r => q.rootDepth.contains r.rootDepth)
  let filtered := if q.growthForm.isEmpty then filtered else
    filtered.filter (fun r => q.growthForm.contains r.growthForm)
  let filtered := if q.stressTolerance.isEmpty then filtered else
    filtered.filter (fun r => q.stressTolerance.contains r.stressTolerance)
  let filtered := if q.vegetable.isEmpty then filtered else
    filtered.filter (fun r => q.vegetable.contains r.vegetableFlag)
  let filtered := if q.usage.isEmpty then filtered else
    filtered.filter (fun r => usage_match q.usage r)
  filtered

/-- A single-field query: exactly one filterable field carries values. -/
inductive FilterField where
  | plants (vs : List String)
  | rootSystem (vs : List String)
  | rootDepth (vs : List String)
  | growthForm (vs : List String)
  | stressTolerance (vs : List String)
  | vegetable (vs : List String)
  | usage (vs : List String)

/-- The selected values of a single-field query. -/
def FilterField.values : FilterField → List String
  | .plants vs => vs
  | .rootSystem vs => vs
  | .rootDepth vs => vs
  | .growthForm vs => vs
  | .stressTolerance vs => vs
  | .vegetable vs => vs
  | .usage vs => vs

/-- The query in which only the given field is present. -/
def FilterField.toQuery : FilterField → Query
  | .plants vs => ⟨vs, [], [], [], [], [], []⟩
  | .rootSystem vs => ⟨[], vs, [], [], [], [], []⟩
  | .rootDepth vs => ⟨[], [], vs, [], [], [], []⟩
  | .growthForm vs => ⟨[], [], [], vs, [], [], []⟩
  | .stressTolerance vs => ⟨[], [], [], [], vs, [], []⟩
  | .vegetable vs => ⟨[], [], [], [], [], vs, []⟩
  | .usage vs => ⟨[], [], [], [], [], [], vs⟩

/-- The field's row predicate: exact set membership of the row's column value
(any-of over the recognized usage flags for the usage field) — never a
substring match. -/
def FilterField.pred : FilterField → Plant → Bool
  | .plants vs, r => vs.contains r.plant
  | .rootSystem vs, r => vs.contains r.rootType
  | .rootDepth vs, r => vs.contains r.rootDepth
  | .growthForm vs, r => vs.contains r.growthForm
  | .stressTolerance vs, r => vs.contains r.stressTolerance
  | .vegetable vs, r => vs.contains r.vegetableFlag
  | .usage vs, r => usage_match vs r

/-- `USAGE_OPTIONS`: the six recognized usage categories. -/
def USAGE_OPTIONS : List String :=
  ["Vegetable", "Fruit", "Medicinal Plant", "Commercial Crop",
   "Ornamental Plant", "Fodder Crop"]

/-- Lexicographic order on code points, as Python compares strings when
sorting (`sorted`); executable counterpart of the string order. -/
def listLE : List Char → List Char → Bool
  | [], _ => true
  | _ :: _, [] => false
  | a :: as, b :: bs =>
    if a.toNat < b.toNat then true
    else if b.toNat < a.toNat then false
    else listLE as bs

theorem listLE_total (as bs : List Char) : listLE as bs = true ∨ listLE bs as = true := by
  induction as generalizing bs with
  | nil => left; rfl
  | cons a as ih =>
    cases bs with
    | nil => right; rfl
    | cons b bs =>
      by_cases h1 : a.toNat < b.toNat
      · left; simp [listLE, h1]
      · by_cases h2 : b.toNat < a.toNat
        · right; simp [listLE, h2]
        · rcases ih bs with h | h
          · left; simp [listLE, h1, h2, h]
          · right; simp [listLE, h1, h2, h]

theorem listLE_trans {as bs cs : List Char} (h1 : listLE as bs = true)
    (h2 : listLE bs cs = true) : listLE as cs = true := by
  induction as generalizing bs cs with
  | nil => rfl
  | cons a as ih =>
    cases bs with
    | nil => simp [listLE] at h1
    | cons b bs =>
      cases cs with
      | nil => simp [listLE] at h2
      | cons c cs =>
        simp only [listLE] at h1 h2 ⊢
        by_cases hab : a.toNat < b.toNat
        · by_cases hbc : b.toNat < c.toNat
          · simp [show a.toNat < c.toNat by omega]
          · by_cases hcb : c.toNat < b.toNat
            · simp [hbc, hcb] at h2
            · simp [show a.toNat < c.toNat by omega]
        · by_cases hba : b.toNat < a.toNat
          · simp [hab, hba] at h1
          · by_cases hbc : b.toNat < c.toNat
            · simp [show a.toNat < c.toNat by omega]
            · by_cases hcb : c.toNat < b.toNat
              · simp [hbc, hcb] at h2
              · have h1' : listLE as bs = true := by simpa [hab, hba] using h1
                have h2' : listLE bs cs = true := by simpa [hbc, hcb] using h2
                simp [show ¬ a.toNat < c.toNat by omega,
                      show ¬ c.toNat < a.toNat by omega, ih h1' h2']

/-- String comparison used by Python's `sorted` over the option values. -/
def strLE (a b : String) : Bool := listLE a.data b.data

/-- `strLE` as a relation, for `List.insertionSort`. -/
def strRel (a b : String) : Prop := strLE a b = true

instance : DecidableRel strRel := fun a b => inferInstanceAs (Decidable (strLE a b = true))

instance : IsTotal String strRel := ⟨fun a b => listLE_total a.data b.data⟩

instance : IsTrans String strRel := ⟨fun _ _ _ h1 h2 => listLE_trans h1 h2⟩

/-- Python's `sorted` on strings: a stable sort under the code-point order
(the embedding uses insertion sort, which computes the same list). -/
def sortStr (l : List String) : List String := l.insertionSort strRel

/-- Lower-casing a string character by character (`str.lower`). -/
def lowerStr (s : String) : String := ⟨s.data.map Char.toLower⟩

/-- Whether `needle` starts the character list `hay`. -/
def startsWithChars : List Char → List Char → Bool
  | [], _ => true
  | _ :: _, [] => false
  | a :: as, b :: bs => a == b && startsWithChars as bs

/-- Whether `needle` occurs inside `hay` (Python's `needle in hay`). -/
def hasSubChars (needle : List Char) : List Char → Bool
  | [] => startsWithChars needle []
  | c :: t => startsWithChars needle (c :: t) || hasSubChars needle t

/-- Python's substring test `needle in hay` on strings. -/
def strContainsSub (hay needle : String) : Bool := hasSubChars needle.data hay.data

/-- `get_plant_category`: life-form bucket from substring checks on the
lower-cased growth form. -/
def get_plant_category (p : Plant) : String :=
  let stem := lowerStr p.growthForm
  if strContainsSub stem "tree" then "Tree"
  else if strContainsSub stem "shrub" then "Shrub"
  else if strContainsSub stem "herb" then "Herb"
  else if strContainsSub stem "vine" || strContainsSub stem "climber" then "Vine"
  else "Other"

/-- `setdefault(k, []).append(p)` on the category dictionary: appends `p` to
the entry of `k`, creating the entry at the end when absent (Python dicts
keep insertion order). -/
def addToCat (m : List (String × List Plant)) (k : String) (p : Plant) :
    List (String × List Plant) :=
  if m.any (fun e => e.1 == k) then
    m.map (fun e => if e.1 == k then (e.1, e.2 ++ [p]) else e)
  else m ++ [(k, [p])]

/-- `CATEGORY_MAPPINGS`: built once by walking the plant list, grouping by
life-form category, `Edible` (vegetable flag) and `Drought Tolerant`
(substring of the stress tolerance of the first catalog row with the same
id).  The source stores plant summary dicts; the embedding stores the
`Plant` records themselves, with identical keys and membership. -/
def CATEGORY_MAPPINGS (catalog : List Plant) : List (String × List Plant) :=
  catalog.foldl
    (fun m p =>
      let m := addToCat m (get_plant_category p) p
      let m := if p.vegetableFlag == "Yes" then addToCat m "Edible" p else m
      match catalog.find? (fun r => r.plant == p.plant) with
      | some r =>
          if strContainsSub (lowerStr r.stressTolerance) "drought" then
            addToCat m "Drought Tolerant" p
          else m
      | none => m)
    []

/-- `plants_by_category`: `CATEGORY_MAPPINGS.get(category, [])`. -/
def plants_by_category (catalog : List Plant) (category : String) : List Plant :=
  (((CATEGORY_MAPPINGS catalog).find? (fun e => e.1 == category)).map (fun e => e.2)).getD []

/-- The `FILTER_OPTIONS` table: one list of selectable values per field. -/
structure FilterOptions where
  rootSystems : List String
  rootDepths : List String
  growthForms : List String
  stressTolerances : List String
  vegetable : List String
  usage : List String
deriving DecidableEq

/-- `FILTER_OPTIONS`: sorted distinct observed values for the four trait
fields, and the hardcoded `['Yes','No']` and `USAGE_OPTIONS` lists. -/
def FILTER_OPTIONS (catalog : List Plant) : FilterOptions :=
  ⟨sortStr ((catalog.map (·.rootType)).dedup),
   sortStr ((catalog.map (·.rootDepth)).dedup),
   sortStr ((catalog.map (·.growthForm)).dedup),
   sortStr ((catalog.map (·.stressTolerance)).dedup),
   ["Yes", "No"],
   USAGE_OPTIONS⟩

/-- `TRAIT_COLS`: the thirteen encoded trait columns, in source order. -/
def TRAIT_COLS : List (Plant → String) :=
  [Plant.rootType, Plant.rootDepth, Plant.growthForm, Plant.leafTraits,
   Plant.reproductiveTraits, Plant.stressTolerance, Plant.specialAdaptations,
   Plant.vegetableFlag, Plant.fruitFlag, Plant.medicinalFlag,
   Plant.commercialFlag, Plant.ornamentalFlag, Plant.fodderFlag]

/-- `LabelEncoder().fit(column)` over the full catalog: the classes are the
sorted distinct observed values (numpy `unique`). -/
def classesFor (catalog : List Plant) (f : Plant → String) : List String :=
  sortStr ((catalog.map f).dedup)

/-- `LabelEncoder.transform` of one value: its index among the sorted
distinct classes. -/
def codeFor (catalog : List Plant) (f : Plant → String) (p : Plant) : Nat :=
  (classesFor catalog f).indexOf (f p)

/-- The `ENCODED` row of one plant: its ordinal code per trait column. -/
def encodeP (catalog : List Plant) (p : Plant) : List Int :=
  TRAIT_COLS.map (fun f => (codeFor catalog f p : Int))

/-- `max(1, encoded_rows[c].max())`: the radar normalizer, computed over the
entire catalog's encoded column. -/
def traitMax (catalog : List Plant) (f : Plant → String) : Nat :=
  max 1 ((catalog.map (fun p => codeFor catalog f p)).foldr max 0)

/-- One radar series: the plant id and its normalized per-trait values. -/
structure RadarSeries where
  name : String
  values : List ℚ
deriving DecidableEq

/-- `radar_data`: for each selected id, the first matching subset row's
ordinal codes divided by the catalog-wide per-trait maxima; ids with no
matching row are skipped. -/
def radar_data (catalog : List Plant) (selected : List String) : List RadarSeries :=
  if selected.isEmpty then []
  else
    let subset := catalog.filter (fun p => selected.contains p.plant)
    selected.filterMap (fun pid =>
      (subset.find? (fun p => p.plant == pid)).map (fun prow =>
        ⟨pid, TRAIT_COLS.map (fun f =>
          (codeFor catalog f prow : ℚ) / (traitMax catalog f : ℚ))⟩))

/-- Squared Euclidean distance between two encoded rows.  The source sorts by
`math.sqrt` of this quantity; square root is strictly monotone on
nonnegative reals, so the ordering and tie structure coincide. -/
def sqDist (a b : List Int) : Int :=
  ((a.zip b).map (fun e => (e.1 - e.2) ^ 2)).sum

/-- The `sims` list of `similar_plants`: one `(distance, id)` pair per
catalog row other than the query id, in catalog order; the target row is the
first catalog row carrying the query id. -/
def simsFor (catalog : List Plant) (pid : String) : List (Int × String) :=
  match catalog.find? (fun r => r.plant == pid) with
  | none => []
  | some target =>
      (catalog.filter (fun r => r.plant != pid)).map
        (fun r => (sqDist (encodeP catalog r) (encodeP catalog target), r.plant))

/-- The comparison key of `sims.sort(key=lambda x: x[0])`. -/
def simLE (a b : Int × String) : Prop := a.1 ≤ b.1

instance : DecidableRel simLE := fun a b => inferInstanceAs (Decidable (a.1 ≤ b.1))

instance : IsTotal (Int × String) simLE := ⟨fun a b => le_total a.1 b.1⟩

instance : IsTrans (Int × String) simLE := ⟨fun _ _ _ h1 h2 => le_trans h1 h2⟩

/-- `sims.sort(...)` then `sims[:10]`: Python's sort is stable and ascending
on the distance key; insertion sort computes the same list. -/
def similar_ranked (catalog : List Plant) (pid : String) : List (Int × String) :=
  (List.insertionSort simLE (simsFor catalog pid)).take 10

/-- Display label: the common name of the first catalog row with the id,
falling back to the id. -/
def commonNameOf (catalog : List Plant) (pid : String) : String :=
  ((catalog.find? (fun r => r.plant == pid)).map (·.commonName)).getD pid

/-- `similar_plants`: empty for a blank or unknown id, otherwise the ten
nearest `(id, label)` entries. -/
def similar_plants (catalog : List Plant) (pid : String) : List (String × String) :=
  if pid == "" || !((catalog.map (·.plant)).contains pid) then []
  else (similar_ranked catalog pid).map (fun e => (e.2, commonNameOf catalog e.2))

/-- Whether a character is stripped by Python's `str.strip`. -/
def isSpaceChar (c : Char) : Bool :=
  c == ' ' || c == '\t' || c == '\n' || c == '\r'

/-- `str.strip`: drop whitespace at both ends. -/
def trimChars (l : List Char) : List Char :=
  ((l.dropWhile isSpaceChar).reverse.dropWhile isSpaceChar).reverse

/-- Split a character list at every `;`, `,` or `/`. -/
def splitDelims : List Char → List (List Char)
  | [] => [[]]
  | c :: t =>
    if c == ';' || c == ',' || c == '/' then [] :: splitDelims t
    else
      match splitDelims t with
      | [] => [[c]]
      | h :: r => (c :: h) :: r

/-- `split_adaptations`: `re.split(r'[;,/]\s*', text)` followed by `strip`
and dropping empty or `unknown` parts.  The regex also consumes whitespace
after each delimiter; since every part is stripped immediately afterwards,
splitting on the bare delimiters yields the identical token list. -/
def split_adaptations (text : String) : List String :=
  (((splitDelims text.data).map (fun l => (⟨trimChars l⟩ : String))).filter
    (fun p => p != "" && lowerStr p != "unknown"))

/-- One `Counter` update: increment the count of `t`, creating the entry at
the end when absent (insertion order preserved, as in a Python dict). -/
def tally_step (acc : List (String × Nat)) (t : String) : List (String × Nat) :=
  if acc.any (fun e => e.1 == t) then
    acc.map (fun e => if e.1 == t then (e.1, e.2 + 1) else e)
  else acc ++ [(t, 1)]

/-- `collections.Counter` over a token stream: counts keyed in first-seen
order. -/
def tally (ts : List String) : List (String × Nat) :=
  ts.foldl tally_step []

/-- Descending-count comparison used by `Counter.most_common`. -/
def countGE (a b : String × Nat) : Prop := b.2 ≤ a.2

instance : DecidableRel countGE := fun a b => inferInstanceAs (Decidable (b.2 ≤ a.2))

/-- `Counter(ts).most_common(n)` keys: stable descending sort by count,
first `n` entries. -/
def most_common (n : Nat) (ts : List String) : List String :=
  ((List.insertionSort countGE (tally ts)).take n).map (·.1)

/-- The sankey payload: node labels plus `(source, target)` index pairs
(each emitted with weight 1 by the source, omitted here). -/
structure SankeyOut where
  nodes : List String
  links : List (Option Nat × Option Nat)

/-- `stress_values` of `get_sankey`: sorted distinct stress tolerances of
the subset. -/
def sankey_stress_values (subset : List Plant) : List String :=
  sortStr ((subset.map (·.stressTolerance)).dedup)

/-- All adaptation tokens of the subset, in row order. -/
def sankey_tokens (subset : List Plant) : List String :=
  subset.flatMap (fun p => split_adaptations p.specialAdaptations)

/-- `sorted(adaptation_tokens)` of `get_sankey`: all distinct tokens, or the
top 40 by frequency when more than 40 exist, sorted. -/
def sankey_adapt_list (subset : List Plant) : List String :=
  if (sankey_tokens subset).dedup.length > 40 then
    sortStr (most_common 40 (sankey_tokens subset))
  else sortStr (sankey_tokens subset).dedup

/-- `plants` of `get_sankey`: the subset's ids, truncated to the first 150
when more exist. -/
def sankey_plants (subset : List Plant) : List String :=
  if (subset.map (·.plant)).length > 150 then (subset.map (·.plant)).take 150
  else subset.map (·.plant)

/-- `filtered_subset` of `get_sankey`: the rows whose id survived the
150-plant cap. -/
def sankey_filtered (subset : List Plant) : List Plant :=
  if (subset.map (·.plant)).length > 150 then
    subset.filter (fun r => (sankey_plants subset).contains r.plant)
  else subset

/-- The emitted sankey node labels: stress values, adaptation tokens, then
the capped plants' display labels. -/
def sankey_nodes (catalog subset : List Plant) : List String :=
  sankey_stress_values subset ++ sankey_adapt_list subset ++
    (sankey_plants subset).map (fun p => commonNameOf catalog p)

/-- `index_map.get(('stress', s))`: stress nodes were appended first. -/
def sankey_stress_idx (subset : List Plant) (s : String) : Option Nat :=
  if (sankey_stress_values subset).contains s then
    some ((sankey_stress_values subset).indexOf s)
  else none

/-- `index_map.get(('adapt', a))`: adaptation nodes follow the stress
nodes. -/
def sankey_adapt_idx (subset : List Plant) (a : String) : Option Nat :=
  if (sankey_adapt_list subset).contains a then
    some ((sankey_stress_values subset).length + (sankey_adapt_list subset).indexOf a)
  else none

/-- `index_map.get(('plant', p))`: plant nodes come last; a duplicate id
keeps the index of its last occurrence, as the dict assignment overwrites. -/
def sankey_plant_idx (subset : List Plant) (p : String) : Option Nat :=
  if (sankey_plants subset).contains p then
    some ((sankey_stress_values subset).length + (sankey_adapt_list subset).length +
      ((sankey_plants subset).length - 1 - (sankey_plants subset).reverse.indexOf p))
  else none

/-- The emitted `(source, target)` pairs: per capped row and recognized
adaptation token, one stress→adaptation edge and one adaptation→plant edge
(each with weight 1 in the source). -/
def sankey_links (subset : List Plant) : List (Option Nat × Option Nat) :=
  (sankey_filtered subset).flatMap (fun row =>
    (split_adaptations row.specialAdaptations).flatMap (fun a =>
      match sankey_adapt_idx subset a with
      | none => []
      | some aIdx =>
          [(sankey_stress_idx subset row.stressTolerance, some aIdx),
           (some aIdx, sankey_plant_idx subset row.plant)]))

/-- `get_sankey` on a filtered subset: the node labels plus the edge index
pairs. -/
def get_sankey (catalog subset : List Plant) : SankeyOut :=
  ⟨sankey_nodes catalog subset, sankey_links subset⟩

/-- `morph_cols` of `get_clusters`. -/
def morph_cols : List (Plant → String) :=
  [Plant.rootType, Plant.rootDepth, Plant.growthForm, Plant.leafTraits,
   Plant.reproductiveTraits]

/-- `stress_cols` of `get_clusters`. -/
def stress_cols : List (Plant → String) :=
  [Plant.stressTolerance, Plant.specialAdaptations]

/-- `usage_cols` of `get_clusters`. -/
def usage_cols : List (Plant → String) :=
  [Plant.vegetableFlag, Plant.fruitFlag, Plant.medicinalFlag,
   Plant.commercialFlag, Plant.ornamentalFlag, Plant.fodderFlag]

/-- The mode dispatch of `get_clusters` (the route lower-cases the mode
before this point), with the all-columns fallback. -/
def cluster_cols (mode : String) : List (Plant → String) :=
  if mode = "morphology" then morph_cols
  else if mode = "stress" then stress_cols
  else if mode = "usage" then usage_cols
  else if mode = "morphology+stress" ∨ mode = "combined" then morph_cols ++ stress_cols
  else if mode = "stress+usage" then stress_cols ++ usage_cols
  else if mode = "morphology+usage" then morph_cols ++ usage_cols
  else morph_cols ++ stress_cols ++ usage_cols

/-- The per-column category lists fitted by `OneHotEncoder`: sorted distinct
values of each of the input's columns. -/
def oneHotCats (rows : List (List String)) : List (List String) :=
  (List.range (rows.headD []).length).map
    (fun j => sortStr ((rows.map (fun r => r.getD j "")).dedup))

/-- One encoded row: the concatenated indicator blocks, one per column. -/
def oneHotRow (rows : List (List String)) (r : List String) : List ℚ :=
  (List.range (rows.headD []).length).flatMap (fun j =>
    ((oneHotCats rows).getD j []).map (fun v => if v == r.getD j "" then (1 : ℚ) else 0))

/-- Modelled from the sklearn contract of
`OneHotEncoder(handle_unknown='ignore', sparse=False).fit_transform`:
rejects an input with zero samples, otherwise fits one sorted category list
per column and emits one indicator row per input row. -/
def oneHotFitTransform (rows : List (List String)) : Except String (List (List ℚ)) :=
  if rows.isEmpty then .error "Found array with 0 samples"
  else .ok (rows.map (oneHotRow rows))

/-- Modelled from the sklearn contract of
`PCA(n_components=2).fit_transform`: rejects an input whose sample or
feature count is below the requested 2 components, otherwise returns one
2-component point per row.  The floating-point SVD coordinates carry no
specified property and are abstracted as zeros. -/
def pcaFitTransform2 (x : List (List ℚ)) : Except String (List (ℚ × ℚ)) :=
  if x.length < 2 ∨ (x.headD []).length < 2 then
    .error "n_components=2 must be between 0 and min of n_samples and n_features"
  else .ok (x.map (fun _ => ((0 : ℚ), (0 : ℚ))))

/-- Modelled from the sklearn contract of `KMeans(n_clusters=c).fit_predict`:
rejects `c < 1` and `c >` the sample count, otherwise returns one label in
`[0, c)` per sample.  Lloyd's assignment itself carries no specified
property beyond the label range and is abstracted as a range-valid
labelling. -/
def kmeansFitPredict (c : Int) (x : List (List ℚ)) : Except String (List Nat) :=
  if c < 1 then .error "n_clusters should be an int greater than 0"
  else if (x.length : Int) < c then
    .error "n_samples should be greater than or equal to n_clusters"
  else .ok ((List.range x.length).map (fun i => i % c.toNat))

/-- One emitted cluster point. -/
structure ClusterPoint where
  plant : String
  label : String
  pca1 : ℚ
  pca2 : ℚ
  cluster : Nat
deriving DecidableEq

/-- `filtered[cols].astype(str)`: the raw rows fed to the one-hot encoder,
one entry per mode column. -/
def cluster_rows (subset : List Plant) (mode : String) : List (List String) :=
  subset.map (fun p => (cluster_cols mode).map (fun f => f p))

/-- `get_clusters` on a filtered subset: one-hot encode the mode's columns,
project to two components, partition into `min(k, max(1, len(filtered)))`
groups and zip the subset rows with their points and labels. -/
def get_clusters (subset : List Plant) (mode : String) (k : Int) :
    Except String (List ClusterPoint) := do
  let x ← oneHotFitTransform (cluster_rows subset mode)
  let pts ← pcaFitTransform2 x
  let labels ← kmeansFitPredict (min k (max 1 (subset.length : Int))) x
  return (subset.zip (pts.zip labels)).map
    (fun e => ⟨e.1.plant, e.1.commonName, e.2.1.1, e.2.1.2, e.2.2⟩)

/-! Concrete plants used to instantiate witnesses. -/

/-- A concrete catalog row for witnesses. -/
def demoPlant1 : Plant :=
  ⟨"Oryza sativa", "Rice", "Fibrous", "Shallow", "Herb", "Narrow", "Seed",
   "Flood Tolerant", "waxy leaves; aerenchyma", "Yes", "No", "No", "Yes", "No", "No"⟩

/-- A second concrete catalog row for witnesses. -/
def demoPlant2 : Plant :=
  ⟨"Cocos nucifera", "Coconut", "Fibrous", "Deep", "Tree", "Pinnate", "Seed",
   "Drought Tolerant", "thick cuticle", "No", "Yes", "No", "Yes", "No", "No"⟩

/-- A two-row concrete catalog for witnesses. -/
def demoCatalog : List Plant := [demoPlant1, demoPlant2]

/-- `usage_match` is the any-of of the per-tag flag checks. -/
theorem usage_match_eq_any (us : List String) (p : Plant) :
    usage_match us p =
      us.any (fun u =>
        match usage_map u p with
        | some v => v == "Yes"
        | none => false) := by
  unfold usage_match
  suffices h : ∀ b : Bool,
      us.foldl (fun mask u =>
        mask || (match usage_map u p with
                 | some v => v == "Yes"
                 | none => false)) b =
      (b || us.any (fun u =>
        match usage_map u p with
        | some v => v == "Yes"
        | none => false)) by
    simpa using h false
  induction us with
  | nil => intro b; simp
  | cons u t ih => intro b; simp [List.any_cons, ih, Bool.or_assoc]

/-- C3: a query whose every field is absent or empty is the identity on the
catalog, preserving order and length. -/
theorem apply_filters_empty_query (catalog : List Plant) (q : Query)
    (h1 : q.plants = []) (h2 : q.rootSystem = []) (h3 : q.rootDepth = [])
    (h4 : q.growthForm = []) (h5 : q.stressTolerance = []) (h6 : q.vegetable = [])
    (h7 : q.usage = []) : apply_filters catalog q = catalog := by
  simp [apply_filters, h1, h2, h3, h4, h5, h6, h7]

/-- Witness for C3 at a concrete catalog and the empty query. -/
theorem apply_filters_empty_query_witness :
    apply_filters demoCatalog Query.empty = demoCatalog :=
  apply_filters_empty_query demoCatalog Query.empty rfl rfl rfl rfl rfl rfl rfl

/-- C4: a non-empty single-field query filters the catalog by that field's
exact membership predicate: the result is exactly `catalog.filter pred`,
hence sound, complete and order preserving. -/
theorem apply_filters_single_field (catalog : List Plant) (f : FilterField)
    (hne : f.values ≠ []) :
    apply_filters catalog f.toQuery = catalog.filter (fun r => f.pred r) ∧
    (∀ r ∈ apply_filters catalog f.toQuery, f.pred r = true) ∧
    (∀ r ∈ catalog, f.pred r = true → r ∈ apply_filters catalog f.toQuery) ∧
    List.Sublist (apply_filters catalog f.toQuery) catalog := by
  have hE : f.values.isEmpty = false := by
    cases hvals : f.values with
    | nil => exact absurd hvals hne
    | cons v t => rfl
  have hmain : apply_filters catalog f.toQuery = catalog.filter (fun r => f.pred r) := by
    cases f <;>
      · simp only [FilterField.values] at hE
        simp [apply_filters, FilterField.toQuery, FilterField.pred, hE]
  refine ⟨hmain, ?_, ?_, ?_⟩
  · intro r hr
    rw [hmain] at hr
    exact (List.mem_filter.mp hr).2
  · intro r hr hp
    rw [hmain]
    exact List.mem_filter.mpr ⟨hr, hp⟩
  · rw [hmain]
    exact List.filter_sublist catalog

/-- A concrete single-field query for the C4 witness. -/
def demoField : FilterField := .growthForm ["Tree"]

/-- Witness for C4 at a concrete catalog and single-field query. -/
theorem apply_filters_single_field_witness :
    apply_filters demoCatalog demoField.toQuery =
        demoCatalog.filter (fun r => demoField.pred r) ∧
    (∀ r ∈ apply_filters demoCatalog demoField.toQuery, demoField.pred r = true) ∧
    (∀ r ∈ demoCatalog, demoField.pred r = true →
        r ∈ apply_filters demoCatalog demoField.toQuery) ∧
    List.Sublist (apply_filters demoCatalog demoField.toQuery) demoCatalog :=
  apply_filters_single_field demoCatalog demoField (by decide)

/-- C10: a non-empty usage filter whose tags are all outside the six
recognized usage categories matches no row: the result is empty. -/
theorem apply_filters_unrecognized_usage (catalog : List Plant) (us : List String)
    (hne : us ≠ []) (hbad : ∀ u ∈ us, u ∉ USAGE_OPTIONS) :
    apply_filters catalog ⟨[], [], [], [], [], [], us⟩ = [] := by
  have hE : us.isEmpty = false := by
    cases us with
    | nil => exact absurd rfl hne
    | cons v t => rfl
  have hmatch : ∀ p : Plant, usage_match us p = false := by
    intro p
    rw [usage_match_eq_any, List.any_eq_false]
    intro u hu
    have h6 := hbad u hu
    simp only [USAGE_OPTIONS, List.mem_cons, List.not_mem_nil, or_false, not_or] at h6
    obtain ⟨n1, n2, n3, n4, n5, n6⟩ := h6
    simp [usage_map, n1, n2, n3, n4, n5, n6]
  simp [apply_filters, hE, hmatch]

/-- Witness for C10 at a concrete catalog and unrecognized usage tag. -/
theorem apply_filters_unrecognized_usage_witness :
    apply_filters demoCatalog ⟨[], [], [], [], [], [], ["Culinary"]⟩ = [] :=
  apply_filters_unrecognized_usage demoCatalog ["Culinary"] (by decide) (by decide)

/-- C9: an unknown plant id yields an empty similarity result and an unknown
category key yields an empty membership list — neither is an error. -/
theorem unknown_lookups_empty (catalog : List Plant) (pid category : String)
    (hpid : pid ∉ catalog.map (·.plant))
    (hcat : category ∉ (CATEGORY_MAPPINGS catalog).map (·.1)) :
    similar_plants catalog pid = [] ∧ plants_by_category catalog category = [] := by
  constructor
  · have hc : (catalog.map (·.plant)).contains pid = false := by simpa using hpid
    unfold similar_plants
    rw [hc]
    simp
  · have hfind : (CATEGORY_MAPPINGS catalog).find? (fun e => e.1 == category) = none := by
      rw [List.find?_eq_none]
      intro e he
      simp only [beq_iff_eq]
      intro hbe
      exact hcat (hbe ▸ List.mem_map_of_mem (·.1) he)
    simp [plants_by_category, hfind]

/-- Witness for C9 at a concrete catalog with unknown id and key. -/
theorem unknown_lookups_empty_witness :
    similar_plants demoCatalog "zzz" = [] ∧ plants_by_category demoCatalog "Nope" = [] :=
  unknown_lookups_empty demoCatalog "zzz" "Nope" (by decide) (by decide)

/-- C2 counterexample: on a one-row catalog whose only vegetable flag is
`Yes`, the hardcoded `FILTER_OPTIONS.vegetable` list still contains `No`,
which occurs in no record. -/
theorem filter_options_counterexample :
    "No" ∈ (FILTER_OPTIONS [demoPlant1]).vegetable ∧
      ∀ p ∈ [demoPlant1], p.vegetableFlag ≠ "No" := by decide

/-- Helper: membership in a sorted dedup of a mapped column yields a catalog
row carrying the value. -/
theorem mem_sortStr_dedup_map {g : Plant → String} {catalog : List Plant} {v : String}
    (hv : v ∈ sortStr ((catalog.map g).dedup)) : ∃ p ∈ catalog, g p = v := by
  simp only [sortStr, List.mem_insertionSort, List.mem_dedup, List.mem_map] at hv
  exact hv

/-- C2 amended: every value in the four derived `FILTER_OPTIONS` lists
(root systems, root depths, growth forms, stress tolerances) occurs in at
least one catalog record; the `vegetable` and `usage` lists are hardcoded
constants exempt from the invariant. -/
theorem filter_options_observed_values (catalog : List Plant) (v : String) :
    (v ∈ (FILTER_OPTIONS catalog).rootSystems → ∃ p ∈ catalog, p.rootType = v) ∧
    (v ∈ (FILTER_OPTIONS catalog).rootDepths → ∃ p ∈ catalog, p.rootDepth = v) ∧
    (v ∈ (FILTER_OPTIONS catalog).growthForms → ∃ p ∈ catalog, p.growthForm = v) ∧
    (v ∈ (FILTER_OPTIONS catalog).stressTolerances → ∃ p ∈ catalog, p.stressTolerance = v) := by
  refine ⟨fun hv => ?_, fun hv => ?_, fun hv => ?_, fun hv => ?_⟩ <;>
    exact mem_sortStr_dedup_map hv

/-- Witness for the amended C2 at a concrete catalog and value. -/
theorem filter_options_observed_values_witness :
    ∃ p ∈ [demoPlant1], p.rootType = "Fibrous" :=
  (filter_options_observed_values [demoPlant1] "Fibrous").1 (by decide)

/-- C6: for every trait column the encoder's classes are the distinct
observed values in strictly sorted order, codes are exactly the indices
`0..k-1` (the `i`-th sorted class has code `i`), the mapping is a function
of the full catalog only, and equal raw values share the code. -/
theorem ordinal_encoding_spec (catalog : List Plant) (f : Plant → String)
    (_hf : f ∈ TRAIT_COLS) :
    (classesFor catalog f).Pairwise (fun a b => strLE a b = true ∧ a ≠ b) ∧
    (∀ v, v ∈ classesFor catalog f ↔ v ∈ catalog.map f) ∧
    (classesFor catalog f).length = (catalog.map f).dedup.length ∧
    (∀ p ∈ catalog, codeFor catalog f p < (classesFor catalog f).length) ∧
    (∀ i, (h : i < (classesFor catalog f).length) →
        (classesFor catalog f).indexOf ((classesFor catalog f).get ⟨i, h⟩) = i) ∧
    (∀ p q : Plant, f p = f q → codeFor catalog f p = codeFor catalog f q) := by
  have hnd : (classesFor catalog f).Nodup :=
    (List.perm_insertionSort strRel _).nodup_iff.mpr (List.nodup_dedup _)
  have hsorted : (classesFor catalog f).Sorted strRel :=
    List.sorted_insertionSort strRel _
  have hmem : ∀ v, v ∈ classesFor catalog f ↔ v ∈ catalog.map f := by
    intro v
    simp [classesFor, sortStr]
  refine ⟨hsorted.and hnd, hmem, ?_, ?_, ?_, ?_⟩
  · exact ((List.perm_insertionSort strRel _).length_eq).trans rfl
  · intro p hp
    exact List.indexOf_lt_length.mpr ((hmem (f p)).mpr (List.mem_map_of_mem f hp))
  · intro i h
    simpa using List.indexOf_getElem hnd i h
  · intro p q hpq
    unfold codeFor
    rw [hpq]

/-- Witness for C6 at a concrete catalog and the growth-form column. -/
theorem ordinal_encoding_spec_witness :
    (classesFor demoCatalog Plant.growthForm).Pairwise
      (fun a b => strLE a b = true ∧ a ≠ b) :=
  (ordinal_encoding_spec demoCatalog Plant.growthForm (by simp [TRAIT_COLS])).1

/-- `find?` over a selection filter agrees with `find?` over the catalog
when the sought id is itself selected. -/
theorem find?_filter_selected (catalog : List Plant) (selected : List String)
    (pid : String) (hsel : pid ∈ selected) :
    (catalog.filter (fun p => selected.contains p.plant)).find?
        (fun p => p.plant == pid) =
      catalog.find? (fun p => p.plant == pid) := by
  induction catalog with
  | nil => rfl
  | cons h t ih =>
    rw [List.filter_cons]
    by_cases hmem : h.plant ∈ selected
    · rw [if_pos (by simpa using hmem)]
      by_cases hp : h.plant = pid
      · rw [List.find?_cons_of_pos _ (by simp [hp]),
            List.find?_cons_of_pos _ (by simp [hp])]
      · rw [List.find?_cons_of_neg _ (by simp [hp]),
            List.find?_cons_of_neg _ (by simp [hp]), ih]
    · rw [if_neg (by simpa using hmem)]
      have hp : h.plant ≠ pid := fun he => hmem (he ▸ hsel)
      rw [List.find?_cons_of_neg _ (by simp [hp]), ih]

/-- A member of a list is bounded by its `foldr max 0`. -/
theorem le_foldr_max {l : List ℕ} {x : ℕ} (h : x ∈ l) : x ≤ l.foldr max 0 := by
  induction l with
  | nil => cases h
  | cons a t ih =>
    rcases List.mem_cons.mp h with rfl | h'
    · exact le_max_left _ _
    · exact le_trans (ih h') (le_max_right _ _)

/-- C7: every emitted radar series carries, per trait, the first matching
catalog row's ordinal code divided by the catalog-wide trait maximum, each
value lies in `[0,1]`, and series for the same plant id are identical across
independent requests. -/
theorem radar_normalized_by_catalog_max (catalog : List Plant) :
    (∀ selected s, s ∈ radar_data catalog selected →
        ∃ prow, catalog.find? (fun p => p.plant == s.name) = some prow ∧
          s.values = TRAIT_COLS.map (fun f =>
            (codeFor catalog f prow : ℚ) / (traitMax catalog f : ℚ)) ∧
          ∀ v ∈ s.values, 0 ≤ v ∧ v ≤ 1) ∧
    (∀ sel1 sel2 s1 s2, s1 ∈ radar_data catalog sel1 → s2 ∈ radar_data catalog sel2 →
        s1.name = s2.name → s1.values = s2.values) := by
  have hA : ∀ selected s, s ∈ radar_data catalog selected →
      ∃ prow, catalog.find? (fun p => p.plant == s.name) = some prow ∧
        s.values = TRAIT_COLS.map (fun f =>
          (codeFor catalog f prow : ℚ) / (traitMax catalog f : ℚ)) ∧
        ∀ v ∈ s.values, 0 ≤ v ∧ v ≤ 1 := by
    intro selected s hs
    cases selected with
    | nil => simp [radar_data] at hs
    | cons a tsel =>
      simp only [radar_data, List.isEmpty_cons, Bool.false_eq_true, if_false,
        List.mem_filterMap] at hs
      obtain ⟨pid, hpid, hmap⟩ := hs
      obtain ⟨prow, hfind, hval⟩ := Option.map_eq_some'.mp hmap
      refine ⟨prow, ?_, ?_, ?_⟩
      · rw [← hval]
        rw [← find?_filter_selected catalog (a :: tsel) pid hpid]
        exact hfind
      · rw [← hval]
      · intro v hv
        rw [← hval] at hv
        simp only [List.mem_map] at hv
        obtain ⟨f, _, rfl⟩ := hv
        have hprow : prow ∈ catalog :=
          List.mem_of_mem_filter (List.mem_of_find?_eq_some hfind)
        constructor
        · exact div_nonneg (Nat.cast_nonneg _) (Nat.cast_nonneg _)
        · have hmaxpos : (0 : ℚ) < (traitMax catalog f : ℚ) := by
            have : 1 ≤ traitMax catalog f := le_max_left _ _
            exact_mod_cast Nat.lt_of_lt_of_le Nat.zero_lt_one this
          rw [div_le_one hmaxpos]
          have hle : codeFor catalog f prow ≤ traitMax catalog f := by
            have h1 : codeFor catalog f prow ∈ catalog.map (fun p => codeFor catalog f p) :=
              List.mem_map_of_mem _ hprow
            exact le_trans (le_foldr_max h1) (le_max_right _ _)
          exact_mod_cast hle
  refine ⟨hA, ?_⟩
  intro sel1 sel2 s1 s2 h1 h2 hname
  obtain ⟨p1, hf1, hv1, _⟩ := hA sel1 s1 h1
  obtain ⟨p2, hf2, hv2, _⟩ := hA sel2 s2 h2
  rw [hname] at hf1
  rw [hf2] at hf1
  obtain rfl := Option.some.inj hf1
  rw [hv1, hv2]

/-- The first radar series of a concrete request, for the C7 witness. -/
def demoSeries : RadarSeries :=
  (radar_data demoCatalog ["Oryza sativa"]).headD ⟨"", []⟩

/-- `headD` of a non-empty list is a member. -/
theorem headD_mem {α : Type} (l : List α) (d : α) (h : l.isEmpty = false) :
    l.headD d ∈ l := by
  cases l with
  | nil => simp at h
  | cons a t => simp

/-- Witness for C7 at a concrete catalog and request. -/
theorem radar_normalized_by_catalog_max_witness :
    ∃ prow, demoCatalog.find? (fun p => p.plant == demoSeries.name) = some prow ∧
      demoSeries.values = TRAIT_COLS.map (fun f =>
        (codeFor demoCatalog f prow : ℚ) / (traitMax demoCatalog f : ℚ)) ∧
      ∀ v ∈ demoSeries.values, 0 ≤ v ∧ v ≤ 1 :=
  (radar_normalized_by_catalog_max demoCatalog).1 ["Oryza sativa"] demoSeries
    (headD_mem _ _ (by decide))

/-- Members of `takeWhile p` satisfy `p`. -/
theorem mem_takeWhile_pred {α : Type} (p : α → Bool) :
    ∀ (l : List α) (a : α), a ∈ l.takeWhile p → p a = true := by
  intro l
  induction l with
  | nil => intro a ha; simp [List.takeWhile] at ha
  | cons h t ih =>
    intro a ha
    cases hpa : p h with
    | false => rw [List.takeWhile_cons, hpa] at ha; simp at ha
    | true =>
      rw [List.takeWhile_cons, hpa] at ha
      simp only [if_true] at ha
      rcases List.mem_cons.mp ha with rfl | h2
      · exact hpa
      · exact ih _ h2

/-- Stability of the distance sort: when the input is strictly increasing in
original position, the sorted output is ordered lexicographically by
distance, then original position — a stable ascending sort. -/
theorem simSort_lex (posF : Int × String → Nat) (l : List (Int × String))
    (hl : l.Pairwise fun a b => posF a < posF b) :
    (List.insertionSort simLE l).Pairwise
      (fun a b => a.1 < b.1 ∨ (a.1 = b.1 ∧ posF a < posF b)) := by
  induction l with
  | nil => simp
  | cons x xs ih =>
    rw [List.pairwise_cons] at hl
    obtain ⟨hx, hxs⟩ := hl
    have IH := ih hxs
    have hxL : ∀ b ∈ List.insertionSort simLE xs, posF x < posF b := fun b hb =>
      hx b ((List.mem_insertionSort simLE).mp hb)
    show (List.orderedInsert simLE x (List.insertionSort simLE xs)).Pairwise _
    have hsorted : (List.orderedInsert simLE x (List.insertionSort simLE xs)).Sorted simLE :=
      List.Sorted.orderedInsert x _ (List.sorted_insertionSort simLE xs)
    rw [List.orderedInsert_eq_take_drop] at hsorted ⊢
    have hsplit :
        ((List.insertionSort simLE xs).takeWhile fun b => ¬ simLE x b) ++
          ((List.insertionSort simLE xs).dropWhile fun b => ¬ simLE x b) =
          List.insertionSort simLE xs := List.takeWhile_append_dropWhile _ _
    obtain ⟨hst, hsxd, hcrossS⟩ := List.pairwise_append.mp hsorted
    have hxd : ∀ b ∈ (List.insertionSort simLE xs).dropWhile fun b => ¬ simLE x b,
        simLE x b := (List.pairwise_cons.mp hsxd).1
    have hlexL :
        (((List.insertionSort simLE xs).takeWhile fun b => ¬ simLE x b) ++
          ((List.insertionSort simLE xs).dropWhile fun b => ¬ simLE x b)).Pairwise
          (fun a b => a.1 < b.1 ∨ (a.1 = b.1 ∧ posF a < posF b)) := by
      rw [hsplit]; exact IH
    obtain ⟨hlt, hld, hcross⟩ := List.pairwise_append.mp hlexL
    rw [List.pairwise_append]
    refine ⟨hlt, ?_, ?_⟩
    · rw [List.pairwise_cons]
      refine ⟨?_, hld⟩
      intro b hb
      have hbL : b ∈ List.insertionSort simLE xs := by
        rw [← hsplit]
        exact List.mem_append_right _ hb
      have hpos := hxL b hbL
      rcases lt_or_eq_of_le (hxd b hb) with h | h
      · exact Or.inl h
      · exact Or.inr ⟨h, hpos⟩
    · intro a ha b hb
      rcases List.mem_cons.mp hb with rfl | hbd
      · have hpa := mem_takeWhile_pred _ _ _ ha
        exact Or.inl (not_le.mp (of_decide_eq_true hpa))
      · exact hcross a ha b hbd

/-- A catalog with distinct ids is strictly increasing in the index of each
row's id. -/
theorem pairwise_indexOf_of_nodup (catalog : List Plant)
    (hnd : (catalog.map (·.plant)).Nodup) :
    catalog.Pairwise (fun a b =>
      (catalog.map (·.plant)).indexOf a.plant <
        (catalog.map (·.plant)).indexOf b.plant) := by
  rw [List.pairwise_iff_getElem]
  intro i j hi hj hij
  have hi' : i < (catalog.map (·.plant)).length := by simpa using hi
  have hj' : j < (catalog.map (·.plant)).length := by simpa using hj
  have he1 : (catalog.map (·.plant)).indexOf catalog[i].plant = i := by
    have hg : (catalog.map (·.plant))[i] = catalog[i].plant := List.getElem_map _
    rw [← hg]
    exact List.indexOf_getElem hnd i hi'
  have he2 : (catalog.map (·.plant)).indexOf catalog[j].plant = j := by
    have hg : (catalog.map (·.plant))[j] = catalog[j].plant := List.getElem_map _
    rw [← hg]
    exact List.indexOf_getElem hnd j hj'
  rw [he1, he2]
  exact hij

/-- The `sims` pairs are strictly increasing in the catalog index of their
id when the catalog ids are distinct. -/
theorem simsFor_pairwise (catalog : List Plant) (pid : String)
    (hnd : (catalog.map (·.plant)).Nodup) :
    (simsFor catalog pid).Pairwise (fun a b =>
      (catalog.map (·.plant)).indexOf a.2 <
        (catalog.map (·.plant)).indexOf b.2) := by
  unfold simsFor
  cases hfind : catalog.find? (fun r => r.plant == pid) with
  | none => simp
  | some target =>
    rw [List.pairwise_map]
    exact (pairwise_indexOf_of_nodup catalog hnd).sublist (List.filter_sublist catalog)

/-- C5: for a query id present in a duplicate-free catalog, the ranked
similarity list omits the query id, has at most ten entries, is sorted by
ascending distance with ties broken by catalog order, and the endpoint
output lists exactly its ids in that order. -/
theorem similar_ranked_spec (catalog : List Plant) (pid : String)
    (hmem : pid ∈ catalog.map (·.plant))
    (hnd : (catalog.map (·.plant)).Nodup) :
    (∀ e ∈ similar_ranked catalog pid, e.2 ≠ pid) ∧
    (similar_ranked catalog pid).length ≤ 10 ∧
    (similar_ranked catalog pid).Pairwise (fun a b =>
      a.1 < b.1 ∨ (a.1 = b.1 ∧
        (catalog.map (·.plant)).indexOf a.2 <
          (catalog.map (·.plant)).indexOf b.2)) ∧
    (pid ≠ "" →
      (similar_plants catalog pid).map Prod.fst =
        (similar_ranked catalog pid).map Prod.snd) := by
  refine ⟨?_, ?_, ?_, ?_⟩
  · intro e he
    have he' : e ∈ List.insertionSort simLE (simsFor catalog pid) :=
      (List.take_sublist _ _).subset he
    have he2 : e ∈ simsFor catalog pid := (List.mem_insertionSort simLE).mp he'
    unfold simsFor at he2
    cases hfind : catalog.find? (fun r => r.plant == pid) with
    | none =>
      rw [hfind] at he2
      exact absurd he2 (List.not_mem_nil e)
    | some target =>
      rw [hfind] at he2
      obtain ⟨r, _, rfl⟩ := List.mem_map.mp he2
      have hf := List.of_mem_filter (by assumption : r ∈ catalog.filter (fun r => r.plant != pid))
      simpa using hf
  · unfold similar_ranked
    rw [List.length_take]
    exact min_le_left _ _
  · exact (simSort_lex _ _ (simsFor_pairwise catalog pid hnd)).sublist
      (List.take_sublist _ _)
  · intro hne
    unfold similar_plants
    have h1 : (pid == "") = false := by simpa using hne
    have h2 : (catalog.map (·.plant)).contains pid = true := by simpa using hmem
    rw [h1, h2]
    simp [List.map_map, Function.comp]

/-- Witness for C5 at a concrete catalog and query id. -/
theorem similar_ranked_spec_witness :
    (∀ e ∈ similar_ranked demoCatalog "Oryza sativa", e.2 ≠ "Oryza sativa") ∧
    (similar_ranked demoCatalog "Oryza sativa").length ≤ 10 ∧
    (similar_ranked demoCatalog "Oryza sativa").Pairwise (fun a b =>
      a.1 < b.1 ∨ (a.1 = b.1 ∧
        (demoCatalog.map (·.plant)).indexOf a.2 <
          (demoCatalog.map (·.plant)).indexOf b.2)) ∧
    ("Oryza sativa" ≠ "" →
      (similar_plants demoCatalog "Oryza sativa").map Prod.fst =
        (similar_ranked demoCatalog "Oryza sativa").map Prod.snd) :=
  similar_ranked_spec demoCatalog "Oryza sativa" (by decide) (by decide)

/-- `sortStr` preserves length. -/
theorem sortStr_length (l : List String) : (sortStr l).length = l.length :=
  List.length_insertionSort strRel l

/-- `sortStr` preserves membership. -/
theorem mem_sortStr {x : String} {l : List String} : x ∈ sortStr l ↔ x ∈ l :=
  List.mem_insertionSort strRel

/-- The keys of one `Counter` update. -/
theorem tally_step_fst (acc : List (String × Nat)) (t : String) :
    (tally_step acc t).map Prod.fst =
      if acc.any (fun e => e.1 == t) then acc.map Prod.fst
      else acc.map Prod.fst ++ [t] := by
  unfold tally_step
  by_cases h : acc.any (fun e => e.1 == t)
  · rw [if_pos h, if_pos h, List.map_map]
    refine List.map_congr_left ?_
    intro e _
    by_cases he : e.1 = t <;> simp [he]
  · rw [if_neg h, if_neg h, List.map_append]
    rfl

/-- Folding `Counter` updates keeps keys distinct and exactly covers the
seen tokens. -/
theorem tally_fst_nodup_mem (ts : List String) :
    ∀ acc : List (String × Nat), (acc.map Prod.fst).Nodup →
    ((ts.foldl tally_step acc).map Prod.fst).Nodup ∧
    (∀ x, x ∈ (ts.foldl tally_step acc).map Prod.fst ↔
        x ∈ acc.map Prod.fst ∨ x ∈ ts) := by
  induction ts with
  | nil =>
    intro acc h
    exact ⟨h, by simp⟩
  | cons t ts ih =>
    intro acc h
    rw [List.foldl_cons]
    have hstep_nodup : ((tally_step acc t).map Prod.fst).Nodup := by
      rw [tally_step_fst]
      by_cases hc : acc.any (fun e => e.1 == t)
      · rw [if_pos hc]; exact h
      · rw [if_neg hc]
        have ht : t ∉ acc.map Prod.fst := by
          intro hmem
          apply hc
          rw [List.any_eq_true]
          obtain ⟨e, he, hfe⟩ := List.mem_map.mp hmem
          exact ⟨e, he, by simp [hfe]⟩
        rw [List.nodup_append]
        exact ⟨h, List.nodup_singleton t, by simpa using ht⟩
    have hstep_mem : ∀ x, x ∈ (tally_step acc t).map Prod.fst ↔
        x ∈ acc.map Prod.fst ∨ x = t := by
      intro x
      rw [tally_step_fst]
      by_cases hc : acc.any (fun e => e.1 == t)
      · rw [if_pos hc]
        constructor
        · exact fun hx => Or.inl hx
        · rintro (hx | rfl)
          · exact hx
          · obtain ⟨e, he, hfe⟩ := List.any_eq_true.mp hc
            exact List.mem_map.mpr ⟨e, he, by simpa using hfe⟩
      · rw [if_neg hc]
        simp
    obtain ⟨hn, hm⟩ := ih (tally_step acc t) hstep_nodup
    refine ⟨hn, fun x => ?_⟩
    rw [hm x, hstep_mem x, List.mem_cons]
    tauto

/-- The `Counter` has one entry per distinct token. -/
theorem tally_length (ts : List String) : (tally ts).length = ts.dedup.length := by
  obtain ⟨hn, hm⟩ := tally_fst_nodup_mem ts [] (by simp)
  have hperm : List.Perm ((tally ts).map Prod.fst) ts.dedup := by
    show List.Perm ((ts.foldl tally_step []).map Prod.fst) ts.dedup
    rw [List.perm_ext_iff_of_nodup hn (List.nodup_dedup ts)]
    intro x
    rw [List.mem_dedup, hm x]
    simp
  have := hperm.length_eq
  simpa using this

/-- The adaptation node tier has `min 40 (#distinct tokens)` entries. -/
theorem sankey_adapt_list_length (subset : List Plant) :
    (sankey_adapt_list subset).length =
      min 40 (sankey_tokens subset).dedup.length := by
  unfold sankey_adapt_list
  by_cases h : (sankey_tokens subset).dedup.length > 40
  · rw [if_pos h, sortStr_length]
    unfold most_common
    rw [List.length_map, List.length_take, List.length_insertionSort, tally_length]
  · rw [if_neg h, sortStr_length]
    omega

/-- The plant node tier has `min 150 (#subset rows)` entries. -/
theorem sankey_plants_length (subset : List Plant) :
    (sankey_plants subset).length = min 150 subset.length := by
  unfold sankey_plants
  by_cases h : (subset.map (·.plant)).length > 150
  · rw [if_pos h, List.length_take]
    rw [List.length_map] at h ⊢
  · rw [if_neg h]
    rw [List.length_map] at h ⊢
    omega

/-- Every capped row is a subset row. -/
theorem sankey_filtered_subset {subset : List Plant} {row : Plant}
    (h : row ∈ sankey_filtered subset) : row ∈ subset := by
  unfold sankey_filtered at h
  by_cases hc : (subset.map (·.plant)).length > 150
  · rw [if_pos hc] at h
    exact List.mem_of_mem_filter h
  · rwa [if_neg hc] at h

/-- Every capped row's id survived into the capped plant list. -/
theorem sankey_filtered_plant_mem {subset : List Plant} {row : Plant}
    (h : row ∈ sankey_filtered subset) : row.plant ∈ sankey_plants subset := by
  unfold sankey_filtered at h
  by_cases hc : (subset.map (·.plant)).length > 150
  · rw [if_pos hc] at h
    have := List.of_mem_filter h
    simpa using this
  · rw [if_neg hc] at h
    unfold sankey_plants
    rw [if_neg hc]
    exact List.mem_map_of_mem _ h

/-- C8: the sankey node count is bounded by the distinct stress values plus
`min 40` distinct adaptation tokens plus `min 150` plants, and every emitted
link's source and target are indices of emitted nodes. -/
theorem sankey_caps_and_link_validity (catalog subset : List Plant) :
    (get_sankey catalog subset).nodes.length ≤
      (subset.map (·.stressTolerance)).dedup.length +
        min 40 ((subset.flatMap
          (fun p => split_adaptations p.specialAdaptations)).dedup.length) +
        min 150 subset.length ∧
    ∀ lk ∈ (get_sankey catalog subset).links,
      (∃ i, lk.1 = some i ∧ i < (get_sankey catalog subset).nodes.length) ∧
      (∃ j, lk.2 = some j ∧ j < (get_sankey catalog subset).nodes.length) := by
  have hlen : (get_sankey catalog subset).nodes.length =
      (sankey_stress_values subset).length + (sankey_adapt_list subset).length +
        (sankey_plants subset).length := by
    show (sankey_nodes catalog subset).length = _
    unfold sankey_nodes
    rw [List.length_append, List.length_append, List.length_map]
  constructor
  · rw [hlen]
    have h1 : (sankey_stress_values subset).length =
        (subset.map (·.stressTolerance)).dedup.length := sortStr_length _
    have h2 := sankey_adapt_list_length subset
    have h3 := sankey_plants_length subset
    rw [h1, h2, h3]
    unfold sankey_tokens
    exact le_refl _
  · intro lk hlk
    have hlk' : lk ∈ sankey_links subset := hlk
    unfold sankey_links at hlk'
    obtain ⟨row, hrow, hlk2⟩ := List.mem_flatMap.mp hlk'
    obtain ⟨a, _, hlk3⟩ := List.mem_flatMap.mp hlk2
    have hrow_sub : row ∈ subset := sankey_filtered_subset hrow
    have hstress_mem : row.stressTolerance ∈ sankey_stress_values subset := by
      unfold sankey_stress_values
      rw [mem_sortStr, List.mem_dedup]
      exact List.mem_map_of_mem _ hrow_sub
    have hs_lt : (sankey_stress_values subset).indexOf row.stressTolerance <
        (sankey_stress_values subset).length := List.indexOf_lt_length.mpr hstress_mem
    have hs_idx : sankey_stress_idx subset row.stressTolerance =
        some ((sankey_stress_values subset).indexOf row.stressTolerance) := by
      unfold sankey_stress_idx
      rw [if_pos (by simpa using hstress_mem)]
    have hplant_mem : row.plant ∈ sankey_plants subset := sankey_filtered_plant_mem hrow
    have hr_lt : (sankey_plants subset).reverse.indexOf row.plant <
        (sankey_plants subset).length := by
      have := List.indexOf_lt_length.mpr (List.mem_reverse.mpr hplant_mem)
      simpa using this
    have hp_idx : sankey_plant_idx subset row.plant =
        some ((sankey_stress_values subset).length + (sankey_adapt_list subset).length +
          ((sankey_plants subset).length - 1 -
            (sankey_plants subset).reverse.indexOf row.plant)) := by
      unfold sankey_plant_idx
      rw [if_pos (by simpa using hplant_mem)]
    cases hidx : sankey_adapt_idx subset a with
    | none =>
      rw [hidx] at hlk3
      exact absurd hlk3 (List.not_mem_nil lk)
    | some aIdx =>
      rw [hidx] at hlk3
      have haIdx : aIdx < (sankey_stress_values subset).length +
          (sankey_adapt_list subset).length := by
        unfold sankey_adapt_idx at hidx
        by_cases hc : (sankey_adapt_list subset).contains a
        · rw [if_pos hc] at hidx
          have heq := Option.some.inj hidx
          have hmem : a ∈ sankey_adapt_list subset := by simpa using hc
          have hlt := List.indexOf_lt_length.mpr hmem
          omega
        · rw [if_neg hc] at hidx
          simp at hidx
      rcases List.mem_cons.mp hlk3 with rfl | h2
      · constructor
        · refine ⟨_, hs_idx, ?_⟩
          rw [hlen]
          omega
        · refine ⟨aIdx, rfl, ?_⟩
          rw [hlen]
          omega
      · rcases List.mem_cons.mp h2 with rfl | h3
        · constructor
          · refine ⟨aIdx, rfl, ?_⟩
            rw [hlen]
            omega
          · refine ⟨_, hp_idx, ?_⟩
            rw [hlen]
            omega
        · exact absurd h3 (List.not_mem_nil lk)

/-- Witness for C8 at a concrete catalog and subset. -/
theorem sankey_caps_and_link_validity_witness :
    (get_sankey demoCatalog demoCatalog).nodes.length ≤
      (demoCatalog.map (·.stressTolerance)).dedup.length +
        min 40 ((demoCatalog.flatMap
          (fun p => split_adaptations p.specialAdaptations)).dedup.length) +
        min 150 demoCatalog.length ∧
    ∀ lk ∈ (get_sankey demoCatalog demoCatalog).links,
      (∃ i, lk.1 = some i ∧ i < (get_sankey demoCatalog demoCatalog).nodes.length) ∧
      (∃ j, lk.2 = some j ∧ j < (get_sankey demoCatalog demoCatalog).nodes.length) :=
  sankey_caps_and_link_validity demoCatalog demoCatalog

/-- A list of naturals each at least 1 sums to at least its length. -/
theorem length_le_sum {l : List ℕ} (h : ∀ x ∈ l, 1 ≤ x) : l.length ≤ l.sum := by
  induction l with
  | nil => simp
  | cons a t ih =>
    rw [List.length_cons, List.sum_cons]
    have ha := h a (List.mem_cons_self a t)
    have ht := ih (fun x hx => h x (List.mem_cons_of_mem a hx))
    omega

/-- Every mode selects at least two columns. -/
theorem cluster_cols_length (mode : String) : 2 ≤ (cluster_cols mode).length := by
  unfold cluster_cols
  split_ifs <;> simp [morph_cols, stress_cols, usage_cols]

/-- A sum of `m` terms each at least 1 is at least `m`. -/
theorem range_map_sum_ge (m : ℕ) (F : ℕ → ℕ) (h : ∀ j, j < m → 1 ≤ F j) :
    m ≤ ((List.range m).map F).sum := by
  have h2 : ((List.range m).map F).length ≤ ((List.range m).map F).sum :=
    length_le_sum (fun x hx => by
      obtain ⟨j, hj, rfl⟩ := List.mem_map.mp hx
      exact h j (List.mem_range.mp hj))
  rwa [List.length_map, List.length_range] at h2

/-- Reduction of an `Except` bind at an `ok` value. -/
theorem except_bind_ok {α β : Type} (a : α) (f : α → Except String β) :
    (Except.ok a : Except String α) >>= f = f a := rfl

/-- Each encoded row has at least one indicator per input column. -/
theorem oneHotRow_length_ge (rows : List (List String)) (hne : rows ≠ [])
    (r : List String) : (rows.headD []).length ≤ (oneHotRow rows r).length := by
  unfold oneHotRow
  rw [List.length_flatMap]
  have hcatsLen : (oneHotCats rows).length = (rows.headD []).length := by
    unfold oneHotCats
    simp
  refine range_map_sum_ge _ _ ?_
  intro j hj
  simp only [Function.comp_apply]
  rw [List.length_map]
  have hjlt : j < (oneHotCats rows).length := by
    unfold oneHotCats
    rw [List.length_map, List.length_range]
    exact hj
  rw [List.getD_eq_getElem _ _ hjlt]
  have hgj : (oneHotCats rows)[j] =
      sortStr ((rows.map (fun rr => rr.getD j "")).dedup) := by
    unfold oneHotCats
    rw [List.getElem_map]
    rw [List.getElem_range]
  rw [hgj, sortStr_length]
  have hne2 : (rows.map (fun rr => rr.getD j "")).dedup ≠ [] := by
    rw [Ne, List.dedup_eq_nil]
    simpa using hne
  exact List.length_pos.mpr hne2

/-- C1 counterexample: a request with `k = 0` on a two-row subset is
rejected — `min(k, max(1, subsetSize))` is `0`, which the partitioner
refuses. -/
theorem get_clusters_rejected_at_k_zero :
    get_clusters demoCatalog "combined" 0 =
      .error "n_clusters should be an int greater than 0" := by rfl

/-- C1 amended: for every requested `k ≥ 1` and filtered subset with at
least two rows, clustering is never rejected, the group count is clamped to
`min(k, max(1, subsetSize))`, the result has one point per subset row, and
every cluster label lies in `[0, min(k, max(1, subsetSize)))`. -/
theorem get_clusters_ok (subset : List Plant) (mode : String) (k : Int)
    (hk : 1 ≤ k) (hn : 2 ≤ subset.length) :
    ∃ pts, get_clusters subset mode k = .ok pts ∧
      pts.length = subset.length ∧
      ∀ r ∈ pts, (r.cluster : Int) < min k (max 1 (subset.length : Int)) := by
  have hrowsne : cluster_rows subset mode ≠ [] := by
    unfold cluster_rows
    intro h
    have hlen := congrArg List.length h
    rw [List.length_map] at hlen
    simp only [List.length_nil] at hlen
    omega
  have hone : oneHotFitTransform (cluster_rows subset mode) =
      .ok ((cluster_rows subset mode).map (oneHotRow (cluster_rows subset mode))) := by
    unfold oneHotFitTransform
    rw [if_neg (by simpa [List.isEmpty_iff] using hrowsne)]
  have hencLen : ((cluster_rows subset mode).map
      (oneHotRow (cluster_rows subset mode))).length = subset.length := by
    rw [List.length_map]
    unfold cluster_rows
    rw [List.length_map]
  have hheadLen : 2 ≤ (((cluster_rows subset mode).map
      (oneHotRow (cluster_rows subset mode))).headD []).length := by
    cases hsub : subset with
    | nil => rw [hsub] at hn; simp at hn
    | cons p1 rest =>
      have hr : cluster_rows (p1 :: rest) mode =
          ((cluster_cols mode).map (fun f => f p1)) ::
            rest.map (fun p => (cluster_cols mode).map (fun f => f p)) := by
        unfold cluster_rows
        rw [List.map_cons]
      have hhead : (cluster_rows (p1 :: rest) mode).headD [] =
          (cluster_cols mode).map (fun f => f p1) := by
        rw [hr]
        rfl
      have hheadlen2 : ((cluster_rows (p1 :: rest) mode).headD []).length =
          (cluster_cols mode).length := by
        rw [hhead, List.length_map]
      have hge := oneHotRow_length_ge (cluster_rows (p1 :: rest) mode)
        (by rw [hr]; intro hcontra; cases hcontra)
        ((cluster_cols mode).map (fun f => f p1))
      calc 2 ≤ (cluster_cols mode).length := cluster_cols_length mode
        _ = ((cluster_rows (p1 :: rest) mode).headD []).length := hheadlen2.symm
        _ ≤ (oneHotRow (cluster_rows (p1 :: rest) mode)
              ((cluster_cols mode).map (fun f => f p1))).length := hge
        _ = (((cluster_rows (p1 :: rest) mode).map
              (oneHotRow (cluster_rows (p1 :: rest) mode))).headD []).length := by
            rw [hr]
            rfl
  have hpca : pcaFitTransform2 ((cluster_rows subset mode).map
      (oneHotRow (cluster_rows subset mode))) =
      .ok (((cluster_rows subset mode).map
        (oneHotRow (cluster_rows subset mode))).map (fun _ => ((0 : ℚ), (0 : ℚ)))) := by
    unfold pcaFitTransform2
    rw [if_neg]
    push_neg
    constructor
    · omega
    · omega
  have hn' : (2 : Int) ≤ (subset.length : Int) := by exact_mod_cast hn
  have hmax : max 1 (subset.length : Int) = (subset.length : Int) :=
    max_eq_right (by omega)
  have hc1 : 1 ≤ min k (max 1 (subset.length : Int)) :=
    le_min hk (by rw [hmax]; omega)
  have hc0 : 0 ≤ min k (max 1 (subset.length : Int)) := le_trans zero_le_one hc1
  have hcle : min k (max 1 (subset.length : Int)) ≤
      (((cluster_rows subset mode).map
        (oneHotRow (cluster_rows subset mode))).length : Int) := by
    rw [hencLen]
    exact le_trans (min_le_right _ _) (le_of_eq hmax)
  have hkm : kmeansFitPredict (min k (max 1 (subset.length : Int)))
      ((cluster_rows subset mode).map (oneHotRow (cluster_rows subset mode))) =
      .ok ((List.range ((cluster_rows subset mode).map
        (oneHotRow (cluster_rows subset mode))).length).map
          (fun i => i % (min k (max 1 (subset.length : Int))).toNat)) := by
    unfold kmeansFitPredict
    rw [if_neg (not_lt.mpr hc1), if_neg (not_lt.mpr hcle)]
  have hcast : (((min k (max 1 (subset.length : Int))).toNat : ℕ) : Int) =
      min k (max 1 (subset.length : Int)) := Int.toNat_of_nonneg hc0
  have heq : get_clusters subset mode k =
      .ok ((subset.zip ((((cluster_rows subset mode).map
          (oneHotRow (cluster_rows subset mode))).map
            (fun _ => ((0 : ℚ), (0 : ℚ)))).zip
          ((List.range ((cluster_rows subset mode).map
            (oneHotRow (cluster_rows subset mode))).length).map
              (fun i => i % (min k (max 1 (subset.length : Int))).toNat)))).map
        (fun e => ⟨e.1.plant, e.1.commonName, e.2.1.1, e.2.1.2, e.2.2⟩)) := by
    unfold get_clusters
    rw [hone, except_bind_ok, hpca, except_bind_ok, hkm, except_bind_ok]
    rfl
  refine ⟨_, heq, ?_, ?_⟩
  · simp only [List.length_map, List.length_zip, List.length_range, hencLen]
    simp
  · intro r hr
    obtain ⟨e, he, rfl⟩ := List.mem_map.mp hr
    have he2 := (List.of_mem_zip he).2
    have he3 := (List.of_mem_zip he2).2
    obtain ⟨i, _, hieq⟩ := List.mem_map.mp he3
    show ((e.2.2 : ℕ) : Int) < _
    rw [← hieq]
    have htn : 0 < (min k (max 1 (subset.length : Int))).toNat := by
      have h01 : (0 : Int) < (((min k (max 1 (subset.length : Int))).toNat : ℕ) : Int) := by
        rw [hcast]
        exact lt_of_lt_of_le zero_lt_one hc1
      exact_mod_cast h01
    have hmod : i % (min k (max 1 (subset.length : Int))).toNat <
        (min k (max 1 (subset.length : Int))).toNat := Nat.mod_lt _ htn
    calc ((i % (min k (max 1 (subset.length : Int))).toNat : ℕ) : Int)
        < (((min k (max 1 (subset.length : Int))).toNat : ℕ) : Int) := by
          exact_mod_cast hmod
      _ = min k (max 1 (subset.length : Int)) := hcast

/-- Witness for the amended C1 at a concrete subset, mode and `k`. -/
theorem get_clusters_ok_witness :
    ∃ pts, get_clusters demoCatalog "usage" 5 = .ok pts ∧
      pts.length = demoCatalog.length ∧
      ∀ r ∈ pts, (r.cluster : Int) < min 5 (max 1 (demoCatalog.length : Int)) :=
  get_clusters_ok demoCatalog "usage" 5 (by decide) (by decide)

end CropDashboard
